import Mathlib

/-!
# Verification of the omon hedging pipeline

A shallow embedding, in Lean 4, of the option-hedging pipeline of this
repository (`src/main.py` and `src/bloomi.py`), together with theorems
settling the specification's claims about it.

Modelling conventions:
* Calendar dates are proleptic-Gregorian ordinals (`Nat`), exactly Python's
  `datetime.date.toordinal` (ordinal 1 = January 1 of year 1).  Python's
  `date.weekday` (Monday = 0 … Sunday = 6) becomes `pyWeekday`.
* All numeric market data (prices, deltas, NAV, …) is modelled as exact
  rationals `ℚ`; the Python code computes with floats, and the claims under
  verification are about which formula is applied, not about float rounding.
* Python exceptions become `Except PyErr`; a `try/except` that logs and
  continues becomes a function that collects the error records in a list.
-/

/-- Python exception kinds observable in the embedded fragments. -/
inductive PyErr where
  | indexError : PyErr
  | valueError : PyErr
deriving DecidableEq, Repr

/-! ## Calendar: Python `datetime` ordinals

`datetime(y, m, d)` is embedded as its proleptic Gregorian ordinal.  -/

/-- Gregorian leap-year test, as in Python's `calendar.isleap`. -/
def isLeap (y : Nat) : Bool :=
  (y % 4 == 0 && y % 100 != 0) || (y % 400 == 0)

/-- Number of leap years in `[1, n]`. -/
def leapCount (n : Nat) : Nat :=
  n / 4 - n / 100 + n / 400

/-- Days in the years `[1, y-1]`, i.e. days before January 1 of year `y`. -/
def daysBeforeYear (y : Nat) : Nat :=
  365 * (y - 1) + leapCount (y - 1)

/-- Length in days of month `m` of year `y` (months are 1-based). -/
def daysInMonth (y m : Nat) : Nat :=
  if m = 2 then (if isLeap y then 29 else 28)
  else if m = 4 ∨ m = 6 ∨ m = 9 ∨ m = 11 then 30
  else 31

/-- Days in the months `[1, m-1]` of year `y`. -/
def daysBeforeMonth (y : Nat) : Nat → Nat
  | 0 => 0
  | 1 => 0
  | m + 2 => daysBeforeMonth y (m + 1) + daysInMonth y (m + 1)

/-- Python's `datetime.date(y, m, d).toordinal()`. -/
def toOrdinal (y m d : Nat) : Nat :=
  daysBeforeYear y + daysBeforeMonth y m + d

/-- Python's `date.fromordinal(n).weekday()`: Monday = 0 … Sunday = 6. -/
def pyWeekday (n : Nat) : Nat := (n + 6) % 7

/-- `pyWeekday`, on `Int` ordinals (the third-Friday arithmetic can leave
the `Nat` range of a single month but never goes negative). -/
def pyWeekdayI (n : Int) : Int := (n + 6) % 7

/-- A calendar date triple, standing for a `datetime` / `pd.Timestamp`
at midnight.  Only `year`/`month`/`day` field access and ordinal
comparison are used by the embedded code. -/
structure Date where
  year : Nat
  month : Nat
  day : Nat
deriving DecidableEq, Repr

/-- Ordinal of a `Date`. -/
def Date.ord (d : Date) : Nat := toOrdinal d.year d.month d.day

/-! ## `get_third_friday` (src/bloomi.py lines 139–146)

```python
first_day_of_month = datetime(year, month, 1)
third_friday = first_day_of_month + timedelta(weeks=2)
third_friday += timedelta(days=(4 - third_friday.weekday()))
return third_friday
```
The result is an `Int` ordinal because the correction `4 - weekday` may be
negative. -/
def get_third_friday (year month : Nat) : Int :=
  let first_day_of_month : Int := (toOrdinal year month 1 : Int)
  let third_friday : Int := first_day_of_month + 14
  third_friday + (4 - pyWeekdayI third_friday)

/-! ## `generate_third_fridays` (src/main.py lines 52–71)

```python
third_fridays = []
current_date = pd.Timestamp(start_date.year, start_date.month, 1)
while current_date <= end_date:
    first_friday = current_date + Week(weekday=4)
    third_friday = first_friday + Week(2)
    if third_friday <= end_date:
        third_fridays.append(third_friday)
    current_date += pd.DateOffset(months=1)
return pd.DatetimeIndex(third_fridays)
```

The month iteration is indexed by the absolute month number
`a = 12 * (year - 1) + (month - 1)`; `+ DateOffset(months=1)` on the first
of a month is `a + 1`.  The `while` loop is embedded with an explicit fuel
argument; `genAux_fuel_irrelevant` below shows the chosen fuel
(`end ordinal + 1`) is enough for the recursion to stop only because the
loop guard fails, exactly as the Python loop does. -/

/-- Year of absolute month `a`. -/
def absYear (a : Nat) : Nat := a / 12 + 1

/-- Month (1-based) of absolute month `a`. -/
def absMonthOf (a : Nat) : Nat := a % 12 + 1

/-- Absolute month number of `(year, month)`. -/
def absMonth (y m : Nat) : Nat := 12 * (y - 1) + (m - 1)

/-- Ordinal of the first day of absolute month `a`
(`pd.Timestamp(year, month, 1)` of the loop). -/
def firstDayAbs (a : Nat) : Nat := toOrdinal (absYear a) (absMonthOf a) 1

/-- `d + Week(weekday=4)` in pandas: roll forward to the next Friday;
a date already on a Friday moves a full week forward. -/
def firstFridayPandas (d : Nat) : Nat :=
  if pyWeekday d = 4 then d + 7 else d + (11 - pyWeekday d) % 7

/-- The date the loop body appends for absolute month `a`:
`(current_date + Week(weekday=4)) + Week(2)`. -/
def enumOf (a : Nat) : Nat := firstFridayPandas (firstDayAbs a) + 14

/-- The loop of `generate_third_fridays`, with explicit fuel. -/
def genAux (endOrd : Nat) : Nat → Nat → List Nat
  | 0, _ => []
  | fuel + 1, a =>
      if firstDayAbs a ≤ endOrd then
        (if enumOf a ≤ endOrd then [enumOf a] else []) ++ genAux endOrd fuel (a + 1)
      else []

/-- `generate_third_fridays(start_date, end_date)`, as a list of ordinals. -/
def generate_third_fridays (start_date end_date : Date) : List Nat :=
  genAux end_date.ord (end_date.ord + 1) (absMonth start_date.year start_date.month)

/-- The date appended for month `a` falls in month `a`; two appended dates of
the same calendar month are therefore equal. -/
def InAbsMonth (a t : Nat) : Prop := firstDayAbs a ≤ t ∧ t < firstDayAbs (a + 1)

/-! ## Option-description parsing primitives

A vendor description string (e.g. `"SPX US 06/21/24 P4500 Index"`) is
embedded as its whitespace-token list `List (List Char)` — Python's
`option.split()`.  `"SPXW" in option` and `"C" in parts[-2]` are substring
tests on whitespace-free patterns, so they are equivalent to per-token
sublist tests.  Python's `float` is modelled on unsigned decimal literals
(the only shape vendor strike suffixes take); `strptime(s, "%m/%d/%y")`
validates 1–2-digit month/day, a 2-digit year (≤ 68 → 2000s, else 1900s)
and the day-of-month range. -/

def isDigitChar (c : Char) : Bool := c.isDigit

/-- Numeric value of a digit string. -/
def digitsToNat (cs : List Char) : Nat :=
  cs.foldl (fun n c => n * 10 + (c.toNat - '0'.toNat)) 0

/-- Split a character list on a separator character. -/
def splitOnChar (sep : Char) : List Char → List (List Char)
  | [] => [[]]
  | c :: rest =>
      let r := splitOnChar sep rest
      if c = sep then [] :: r
      else (c :: r.headD []) :: r.tail

/-- Value of a decimal literal already split on the dot. -/
def parseStrikeParts : List (List Char) → Option ℚ
  | [a] => if a ≠ [] ∧ a.all isDigitChar then some ((digitsToNat a : ℚ)) else none
  | [a, b] =>
      if (a ++ b) ≠ [] ∧ a.all isDigitChar ∧ b.all isDigitChar then
        some ((digitsToNat a : ℚ) + (digitsToNat b : ℚ) / 10 ^ b.length)
      else none
  | _ => none

/-- Python `float` on an unsigned decimal literal: digits with at most one
dot and at least one digit (`"100"`, `"95.5"`, `"100."`, `".5"`). -/
def parseStrike (cs : List Char) : Option ℚ :=
  parseStrikeParts (splitOnChar '.' cs)

/-- `strptime "%m/%d/%y"` on the three slash-separated components:
1–2-digit month and day, 2-digit year (≤ 68 → 2000s, else 1900s), with the
day validated against the month length. -/
def parseMMDDYYParts : List (List Char) → Option Nat
  | [ms, ds, ys] =>
      if ms ≠ [] ∧ ms.length ≤ 2 ∧ ms.all isDigitChar ∧
          ds ≠ [] ∧ ds.length ≤ 2 ∧ ds.all isDigitChar ∧
          ys.length = 2 ∧ ys.all isDigitChar then
        let m := digitsToNat ms
        let d := digitsToNat ds
        let y2 := digitsToNat ys
        let y := if y2 ≤ 68 then 2000 + y2 else 1900 + y2
        if 1 ≤ m ∧ m ≤ 12 ∧ 1 ≤ d ∧ d ≤ daysInMonth y m then
          some (toOrdinal y m d)
        else none
      else none
  | _ => none

/-- Python `datetime.strptime(s, "%m/%d/%y")`, returning the ordinal. -/
def parseMMDDYY (cs : List Char) : Option Nat :=
  parseMMDDYYParts (splitOnChar '/' cs)

/-- Contiguous-sublist (substring) test. -/
def containsSeq (pat : List Char) : List Char → Bool
  | [] => List.isPrefixOf pat []
  | c :: rest => List.isPrefixOf pat (c :: rest) || containsSeq pat rest

/-- `"SPXW" in option`: some whitespace token of the description contains
`SPXW`. -/
def hasSPXW (parts : List (List Char)) : Bool :=
  parts.any (containsSeq ['S', 'P', 'X', 'W'])

/-- `parts[-2]` with Python semantics: `none` (IndexError) when there are
fewer than two tokens. -/
def idxNeg2 (parts : List (List Char)) : Option (List Char) :=
  if parts.length ≥ 2 then parts[parts.length - 2]? else none

/-! ## `filter_option_chains` (src/bloomi.py lines 84–136)

The target expiry (in the source: `get_third_friday` of the month 30 days
after the wall-clock `datetime.now()`, lines 89–92) is taken as an explicit
parameter `third_friday`, per the spec's determinism note; everything below
is the per-snapshot / per-description filtering logic. -/

structure Candidate where
  SECURITY : String
  OPTION : List (List Char)
  TYPE : String
  PX_LAST : ℚ
  STRIKE_PRICE : ℚ
  EXPIRY_DATE : Nat
deriving DecidableEq, Repr

/-- The first `if` of the loop body: CALL candidates for non-benchmark
securities (src/bloomi.py lines 103–115). -/
def callBranch (security : String) (px_last : ℚ) (third_friday : Int)
    (parts : List (List Char)) (tok : List Char) : Except PyErr (List Candidate) :=
  if tok.elem 'C' && !(security == "SPX Index") then
    match parts[2]? with
    | none => .error .indexError
    | some etok =>
      match parseMMDDYY etok with
      | none => .error .valueError
      | some expiry =>
        match parseStrike (tok.drop 1) with
        | none => .error .valueError
        | some strike =>
          if (expiry : Int) = third_friday ∧ strike > px_last then
            .ok [⟨security, parts, "CALL", px_last, strike, expiry⟩]
          else .ok []
  else .ok []

/-- The second `if` of the loop body: PUT candidates for the benchmark
index, excluding weekly (`SPXW`) series (src/bloomi.py lines 117–129). -/
def putBranch (security : String) (px_last : ℚ) (third_friday : Int)
    (parts : List (List Char)) (tok : List Char) : Except PyErr (List Candidate) :=
  if tok.elem 'P' && (security == "SPX Index") && !(hasSPXW parts) then
    match parts[2]? with
    | none => .error .indexError
    | some etok =>
      match parseMMDDYY etok with
      | none => .error .valueError
      | some expiry =>
        match parseStrike (tok.drop 1) with
        | none => .error .valueError
        | some strike =>
          if (expiry : Int) = third_friday ∧ strike < px_last then
            .ok [⟨security, parts, "PUT", px_last, strike, expiry⟩]
          else .ok []
  else .ok []

/-- One iteration of the inner `for option in sec["OPT_CHAIN"]` loop (the
`try` block, src/bloomi.py lines 101–130): `parts[-2]` is read first
(possible IndexError), then each branch in order; the first raised
exception aborts the whole iteration. -/
def processOption (security : String) (px_last : ℚ) (third_friday : Int)
    (parts : List (List Char)) : Except PyErr (List Candidate) :=
  match idxNeg2 parts with
  | none => .error .indexError
  | some tok =>
    match callBranch security px_last third_friday parts tok with
    | .error e => .error e
    | .ok r₁ =>
      match putBranch security px_last third_friday parts tok with
      | .error e => .error e
      | .ok r₂ => .ok (r₁ ++ r₂)

/-- The inner loop over one security's chain: exceptions are caught per
description and logged (collected in the second component), the loop
continues (src/bloomi.py lines 100–132). -/
def chainResults (security : String) (px_last : ℚ) (third_friday : Int) :
    List (List (List Char)) → List Candidate × List (List (List Char) × PyErr)
  | [] => ([], [])
  | opt :: rest =>
      let r := chainResults security px_last third_friday rest
      match processOption security px_last third_friday opt with
      | .ok cs => (cs ++ r.1, r.2)
      | .error e => (r.1, (opt, e) :: r.2)

structure Snapshot where
  SECURITY : String
  PX_LAST : Option ℚ
  OPT_CHAIN : List (List (List Char))

/-- `filter_option_chains`: snapshots with a missing last price are skipped
entirely; for the rest, each chain description is processed in order. -/
def filter_option_chains (security_data : List Snapshot) (third_friday : Int) :
    List Candidate × List (List (List Char) × PyErr) :=
  match security_data with
  | [] => ([], [])
  | sec :: rest =>
      let r :=
        match sec.PX_LAST with
        | none => ([], [])
        | some px => chainResults sec.SECURITY px third_friday sec.OPT_CHAIN
      let rr := filter_option_chains rest third_friday
      (r.1 ++ rr.1, r.2 ++ rr.2)

/-! ## Claim C5: the keep rule of `filter_option_chains` -/

/-- A raw description is a well-formed option entry of the given type
letter, parsed expiry and strike: its third token is a valid `MM/DD/YY`
date and its second-to-last token is the letter immediately followed by a
decimal strike (the spec's `OptionIdentifierParser` reading of the
description). -/
def IsEntry (parts : List (List Char)) (letter : Char) (expiry : Nat) (strike : ℚ) : Prop :=
  ∃ etok tok, parts[2]? = some etok ∧ idxNeg2 parts = some tok ∧
    parseMMDDYY etok = some expiry ∧ tok.head? = some letter ∧
    parseStrike (tok.drop 1) = some strike

/-! ## `find_nearest_otm_option` (src/bloomi.py lines 149–196)

Rows of the enriched options table (`df_filtered_options` merged with the
per-option Greeks/liquidity fields).  Only the columns this function reads
are modelled. -/

structure Enriched where
  SECURITY_x : String
  OPTION : List (List Char)
  TYPE : String
  PX_LAST : ℚ
  STRIKE_PRICE : ℚ
  DELTA : ℚ
  OPEN_INT : ℚ
deriving DecidableEq, Repr

/-- Line 163: the liquidity/delta gate
`((DELTA >= 0.15) & (DELTA <= 0.5) | (DELTA <= -0.05) & (DELTA >= -0.5))
  & (OPEN_INT >= 100)`.  Note there is no condition on the row's type. -/
def otmGate (r : Enriched) : Bool :=
  (decide ((15 : ℚ)/100 ≤ r.DELTA) && decide (r.DELTA ≤ (5 : ℚ)/10)
      || decide (r.DELTA ≤ -((5 : ℚ)/100)) && decide (-((5 : ℚ)/10) ≤ r.DELTA))
    && decide ((100 : ℚ) ≤ r.OPEN_INT)

/-- `group['PX_LAST'].iloc[0]`-relative moneyness, line 177:
`STRIKE_PRICE / PX_LAST - 1`. -/
def moneyness (px_last : ℚ) (r : Enriched) : ℚ := r.STRIKE_PRICE / px_last - 1

/-- `option_type` of a group, read off the group's first row (lines 169–174). -/
def optionTypeOf (g₀ : Enriched) : Char :=
  if g₀.SECURITY_x == "SPX Index" then 'P' else 'C'

/-- `target_strike` of a group (lines 169–174): `0.9 × PX_LAST` for the
benchmark index, `1.1 × PX_LAST` otherwise. -/
def targetStrikeOf (g₀ : Enriched) : ℚ :=
  if g₀.SECURITY_x == "SPX Index" then g₀.PX_LAST * (9/10) else g₀.PX_LAST * (11/10)

/-- `OPTION.str.contains(option_type)` on a token list. -/
def descContains (c : Char) (parts : List (List Char)) : Bool :=
  parts.any (fun t => t.elem c)

/-- The secondary moneyness filter of the group (lines 179–182). -/
def moneynessGate (g₀ : Enriched) (r : Enriched) : Bool :=
  (if optionTypeOf g₀ == 'C' then decide ((5 : ℚ)/100 ≤ moneyness g₀.PX_LAST r)
    else decide (-((1 : ℚ)/10) ≤ moneyness g₀.PX_LAST r))
    && descContains (optionTypeOf g₀) r.OPTION

/-- `|STRIKE_PRICE - target_strike|`, the `Strike_Diff` column (line 185). -/
def strikeDiff (g₀ : Enriched) (r : Enriched) : ℚ :=
  |r.STRIKE_PRICE - targetStrikeOf g₀|

/-- `Series.idxmin` followed by `.loc`: the first row attaining the minimum
of `f` (pandas `idxmin` returns the label of the first occurrence). -/
def firstMin (f : Enriched → ℚ) : List Enriched → Option Enriched
  | [] => none
  | x :: rest =>
      match firstMin f rest with
      | none => some x
      | some y => if f x ≤ f y then some x else some y

/-- `find_closest_option` (lines 165–191): `None` when the filtered group
is empty (the "no option found" notice), else the first row whose strike is
nearest the target. -/
def find_closest_option : List Enriched → Option Enriched
  | [] => none
  | g₀ :: rest =>
      firstMin (strikeDiff g₀) ((g₀ :: rest).filter (moneynessGate g₀))

/-- `find_nearest_otm_option` (lines 149–196): gate, group by security,
select per group, drop empty selections.  (pandas sorts the group keys
alphabetically; the key order affects only the row order of the output,
which no claim depends on — groups themselves keep the input row order.) -/
def find_nearest_otm_option (df : List Enriched) : List Enriched :=
  let df_filtered := df.filter otmGate
  let keys := (df_filtered.map (fun r => r.SECURITY_x)).dedup
  keys.filterMap
    (fun k => find_closest_option (df_filtered.filter (fun r => r.SECURITY_x == k)))

/-- The selected row of a nonempty group after the secondary gates: the
first row of the gated group minimizing the distance of its strike to the
group's target strike. -/
def SelSpec (g₀ : Enriched) (rest : List Enriched) : Prop :=
  ∃ i : Fin ((g₀ :: rest).filter (moneynessGate g₀)).length,
    find_closest_option (g₀ :: rest) =
      some (((g₀ :: rest).filter (moneynessGate g₀)).get i) ∧
    (∀ j, strikeDiff g₀ (((g₀ :: rest).filter (moneynessGate g₀)).get i) ≤
      strikeDiff g₀ (((g₀ :: rest).filter (moneynessGate g₀)).get j)) ∧
    (∀ j : Fin ((g₀ :: rest).filter (moneynessGate g₀)).length,
      (j : Nat) < (i : Nat) →
        strikeDiff g₀ (((g₀ :: rest).filter (moneynessGate g₀)).get i) <
          strikeDiff g₀ (((g₀ :: rest).filter (moneynessGate g₀)).get j))

/-! ## HedgeMetricsCalculator (src/main.py lines 147–244)

A row of the merged portfolio/options table.  `numContracts` stands for the
`'# Contracts'` column (computed by `calculate_number_of_contracts`). -/

structure Row where
  TYPE : String
  volume : ℚ
  country_of_issue : String
  last_xrate_quantity : ℚ
  predicted_nav : ℚ
  percent_nav : ℚ
  PX_LAST : ℚ
  PX_BID : ℚ
  PX_ASK : ℚ
  PRICE_MULTIPLIER : ℚ
  DELTA : ℚ
  GAMMA : ℚ
  Moneyness : ℚ
  numContracts : ℚ
  Premium : ℚ
  Trading_Fees : ℚ
deriving DecidableEq, Repr

/-- `calculate_premium` (lines 147–165): CALL premia use the bid and scale
with the contract count; PUT premia are a flat percentage of the underlying
price; any other type yields `None`. -/
def calculate_premium (row : Row) : Option ℚ :=
  if row.TYPE = "CALL" then
    some ((row.numContracts * row.PX_BID * row.PRICE_MULTIPLIER *
      row.last_xrate_quantity) / row.predicted_nav * 100 * 100)
  else if row.TYPE = "PUT" then
    some (-(row.PX_ASK / row.PX_LAST) * 100 * 100)
  else none

/-- `calculate_trading_fees` (lines 168–191). -/
def calculate_trading_fees (row : Row) : ℚ :=
  if row.TYPE = "CALL" then
    if row.country_of_issue = "US" then max (3.25 * row.numContracts) 35.00
    else max (1.30 * row.numContracts) 30.00
  else if row.TYPE = "PUT" then max (6.50 * row.numContracts) 35.00
  else 0

/-- `calculate_number_of_contracts` (lines 194–202); `np.floor` of the
sizing ratio, as an exact rational of integer value. -/
def calculate_number_of_contracts (row : Row) (predicted_nav : ℚ) : ℚ :=
  if row.TYPE = "CALL" then ((⌊row.volume / row.PRICE_MULTIPLIER⌋ : ℤ) : ℚ)
  else if row.TYPE = "PUT" then
    ((⌊predicted_nav / (row.PRICE_MULTIPLIER * row.PX_LAST)⌋ : ℤ) : ℚ)
  else 0

/-- Python's banker's rounding to an integer (`round(x)`). -/
def bankersRound (x : ℚ) : ℤ :=
  if x - ⌊x⌋ < 1/2 then ⌊x⌋
  else if 1/2 < x - ⌊x⌋ then ⌊x⌋ + 1
  else if ⌊x⌋ % 2 = 0 then ⌊x⌋ else ⌊x⌋ + 1

/-- Python's `round(x, 2)`. -/
def round2 (x : ℚ) : ℚ := (bankersRound (x * 100) : ℚ) / 100

/-- The metrics dictionary of `generate_metrics` (lines 227–240). -/
structure Metrics where
  callPremiumSum : ℚ
  putPremiumSum : ℚ
  putCallSpread : ℚ
  totalTradingFees : ℚ
  callPercentNavSum : ℚ
  weightedCallDelta : ℚ
  weightedCallGamma : ℚ
  weightedCallMoneyness : ℚ
  weightedPutDelta : ℚ
  weightedPutGamma : ℚ
  weightedPutMoneyness : ℚ
deriving DecidableEq, Repr

/-- `generate_metrics` (lines 205–244).  The sums of lines 209–218 are
total; line 220 (`df[df['TYPE'] == 'PUT'].iloc[0]`) raises an IndexError
when there is no PUT row, and line 225 (`df['predicted_nav'].iloc[0]`)
raises on an empty table; both raises are modelled in source order. -/
def generate_metrics (df : List Row) : Except PyErr Metrics :=
  let callRows := df.filter (fun r => r.TYPE == "CALL")
  let putRows := df.filter (fun r => r.TYPE == "PUT")
  let call_premium_sum := (callRows.map Row.Premium).sum
  let put_premium_sum := (putRows.map Row.Premium).sum
  let put_call_spread := call_premium_sum + put_premium_sum
  let call_percent_nav_sum := round2 ((callRows.map Row.percent_nav).sum * 100)
  let weighted_call_delta := (callRows.map (fun r => r.DELTA * r.percent_nav)).sum
  let weighted_call_gamma := (callRows.map (fun r => r.GAMMA * r.percent_nav)).sum
  let weighted_call_moneyness := round2
    ((callRows.map (fun r => r.Moneyness * r.percent_nav)).sum /
      (callRows.map Row.percent_nav).sum * 100)
  match putRows with
  | [] => .error .indexError
  | put_row :: _ =>
      match df with
      | [] => .error .indexError
      | r₀ :: _ =>
          let total_trading_fees := (df.map Row.Trading_Fees).sum / r₀.predicted_nav * 100 * 100
          .ok ⟨call_premium_sum, put_premium_sum, put_call_spread, total_trading_fees,
            call_percent_nav_sum, weighted_call_delta, weighted_call_gamma,
            weighted_call_moneyness, put_row.DELTA, put_row.GAMMA,
            round2 (put_row.Moneyness * 100)⟩

/-! ## Claims C1, C7, C8, C10: metric formulas -/

def exC1call : Row := ⟨"CALL", 0, "US", 1, 100, 1/2, 0, 0, 0, 0, 1, 0, 0, 0, 2, 3⟩

def exC1put : Row := ⟨"PUT", 0, "US", 1, 100, 1/4, 0, 0, 0, 0, 7, 9, 1/4, 0, -5, 4⟩

/-! # Theorems -/
/-! ## Calendar lemmas -/

theorem daysInMonth_ge (y m : Nat) : 28 ≤ daysInMonth y m := by
  unfold daysInMonth
  split_ifs <;> omega

theorem daysInMonth_le (y m : Nat) : daysInMonth y m ≤ 31 := by
  unfold daysInMonth
  split_ifs <;> omega

theorem daysBeforeMonth_step (y m : Nat) :
    daysBeforeMonth y (m + 2) = daysBeforeMonth y (m + 1) + daysInMonth y (m + 1) := rfl

theorem daysBeforeMonth_ge (y r : Nat) : 28 * r ≤ daysBeforeMonth y (r + 1) := by
  induction r with
  | zero => simp [daysBeforeMonth]
  | succ k ih =>
      have h := daysInMonth_ge y (k + 1)
      rw [daysBeforeMonth_step]
      omega

theorem leapCount_step (y : Nat) (h : 1 ≤ y) :
    leapCount y = leapCount (y - 1) + (if isLeap y then 1 else 0) := by
  unfold leapCount isLeap
  by_cases h4 : y % 4 = 0 <;> by_cases h100 : y % 100 = 0 <;>
    by_cases h400 : y % 400 = 0 <;>
    simp [h4, h100, h400] <;> omega

theorem daysBeforeMonth_twelve (y : Nat) :
    daysBeforeMonth y 12 = if isLeap y then 335 else 334 := by
  by_cases h : isLeap y = true <;>
    simp [show (12 : Nat) = 10 + 2 by rfl, daysBeforeMonth, daysInMonth, h]

/-- Stepping from the first of a month to the first of the next month
within the same year. -/
theorem toOrdinal_month_step (y m : Nat) :
    toOrdinal y (m + 2) 1 = toOrdinal y (m + 1) 1 + daysInMonth y (m + 1) := by
  unfold toOrdinal
  rw [daysBeforeMonth_step]
  omega

/-- Stepping from December 1 to January 1 of the next year. -/
theorem toOrdinal_year_step (y : Nat) (h : 1 ≤ y) :
    toOrdinal (y + 1) 1 1 = toOrdinal y 12 1 + 31 := by
  unfold toOrdinal daysBeforeYear
  rw [daysBeforeMonth_twelve]
  have h1 : y + 1 - 1 = y := by omega
  rw [h1, leapCount_step y h]
  by_cases hL : isLeap y = true <;> simp [hL, daysBeforeMonth] <;> omega

/-! ## Claim C4: the third-Friday arithmetic -/

theorem toOrdinal_day (y m d : Nat) : toOrdinal y m d = toOrdinal y m 1 + d - 1 := by
  unfold toOrdinal; omega

/-- C4.  `get_third_friday(year, month)` equals the 15th of the month plus
`4 - weekday(15th)` days, with the offset not reduced modulo 7 (Monday = 0 …
Sunday = 6); the result is always a Friday, and when the 15th falls on a
Saturday (weekday 5) or Sunday (weekday 6) the result is the *preceding*
Friday — one resp. two days before the 15th — rather than a later one. -/
theorem get_third_friday_shape (y m : Nat) :
    get_third_friday y m =
        (toOrdinal y m 15 : Int) + (4 - pyWeekdayI (toOrdinal y m 15)) ∧
      pyWeekdayI (get_third_friday y m) = 4 ∧
      (pyWeekdayI (toOrdinal y m 15) = 5 →
        get_third_friday y m = (toOrdinal y m 15 : Int) - 1) ∧
      (pyWeekdayI (toOrdinal y m 15) = 6 →
        get_third_friday y m = (toOrdinal y m 15 : Int) - 2) ∧
      (5 ≤ pyWeekdayI (toOrdinal y m 15) →
        get_third_friday y m < (toOrdinal y m 15 : Int)) := by
  have h15 : (toOrdinal y m 15 : Int) = (toOrdinal y m 1 : Int) + 14 := by
    unfold toOrdinal; push_cast; ring
  have hdef : get_third_friday y m =
      (toOrdinal y m 1 : Int) + 14 + (4 - ((toOrdinal y m 1 : Int) + 14 + 6) % 7) := rfl
  unfold pyWeekdayI
  rw [hdef, h15]
  omega

/-- Witness for C4 at June 2024: the 15th is a Saturday, and the code's
"third Friday" is June 14, 2024 — the *second* Friday of that month. -/
theorem get_third_friday_shape_witness :
    pyWeekdayI (toOrdinal 2024 6 15) = 5 ∧
      get_third_friday 2024 6 = (toOrdinal 2024 6 15 : Int) - 1 ∧
      get_third_friday 2024 6 = (toOrdinal 2024 6 14 : Int) := by
  refine ⟨by decide, (get_third_friday_shape 2024 6).2.2.1 (by decide), by decide⟩

/-! ## Lemmas about the month enumeration -/

theorem firstDayAbs_step (a : Nat) :
    firstDayAbs (a + 1) = firstDayAbs a + daysInMonth (absYear a) (absMonthOf a) := by
  unfold firstDayAbs absYear absMonthOf
  by_cases h : a % 12 = 11
  · have h1 : (a + 1) / 12 = a / 12 + 1 := by omega
    have h2 : (a + 1) % 12 = 0 := by omega
    rw [h1, h2, h]
    have h3 : daysInMonth (a / 12 + 1) 12 = 31 := by unfold daysInMonth; norm_num
    rw [h3]
    exact toOrdinal_year_step (a / 12 + 1) (by omega)
  · have h1 : (a + 1) / 12 = a / 12 := by omega
    have h2 : (a + 1) % 12 = a % 12 + 1 := by omega
    rw [h1, h2]
    exact toOrdinal_month_step (a / 12 + 1) (a % 12)

theorem firstDayAbs_step_ge (a : Nat) : firstDayAbs a + 28 ≤ firstDayAbs (a + 1) := by
  have h := daysInMonth_ge (absYear a) (absMonthOf a)
  rw [firstDayAbs_step]; omega

theorem firstDayAbs_strictMono : StrictMono firstDayAbs :=
  strictMono_nat_of_lt_succ fun a => by have := firstDayAbs_step_ge a; omega

theorem lt_firstDayAbs (a : Nat) : a < firstDayAbs a := by
  unfold firstDayAbs absYear absMonthOf toOrdinal daysBeforeYear
  have hq : a / 12 + 1 - 1 = a / 12 := by omega
  rw [hq]
  have hd := daysBeforeMonth_ge (a / 12 + 1) (a % 12)
  have ha : a = 12 * (a / 12) + a % 12 := by omega
  omega

theorem firstFridayPandas_bounds (d : Nat) :
    d + 1 ≤ firstFridayPandas d ∧ firstFridayPandas d ≤ d + 7 := by
  unfold firstFridayPandas pyWeekday
  split_ifs with h
  · omega
  · omega

theorem enumOf_bounds (a : Nat) :
    firstDayAbs a + 15 ≤ enumOf a ∧ enumOf a ≤ firstDayAbs a + 21 := by
  have h := firstFridayPandas_bounds (firstDayAbs a)
  unfold enumOf
  omega

/-- Each appended date lies inside its own calendar month. -/
theorem enumOf_in_month (a : Nat) :
    firstDayAbs a ≤ enumOf a ∧ enumOf a < firstDayAbs (a + 1) := by
  have h1 := enumOf_bounds a
  have h2 := firstDayAbs_step_ge a
  omega

theorem enumOf_strictMono : StrictMono enumOf :=
  strictMono_nat_of_lt_succ fun a => by
    have h1 := enumOf_bounds a
    have h2 := enumOf_bounds (a + 1)
    have h3 := firstDayAbs_step_ge a
    omega

theorem inAbsMonth_unique {a b t : Nat} (ha : InAbsMonth a t) (hb : InAbsMonth b t) :
    a = b := by
  by_contra hne
  rcases Nat.lt_or_ge a b with h | h
  · have hm := firstDayAbs_strictMono.monotone (show a + 1 ≤ b by omega)
    obtain ⟨ha1, ha2⟩ := ha; obtain ⟨hb1, hb2⟩ := hb
    omega
  · have hab : b < a := by omega
    have hm := firstDayAbs_strictMono.monotone (show b + 1 ≤ a by omega)
    obtain ⟨ha1, ha2⟩ := ha; obtain ⟨hb1, hb2⟩ := hb
    omega

/-- When the first of the month falls Monday–Thursday, the loop body of
`generate_third_fridays` and `get_third_friday` agree on that month. -/
theorem enumOf_agrees (a : Nat) (h : pyWeekday (firstDayAbs a) ≤ 3) :
    (enumOf a : Int) = get_third_friday (absYear a) (absMonthOf a) := by
  have hdef : get_third_friday (absYear a) (absMonthOf a) =
      (firstDayAbs a : Int) + 14 + (4 - ((firstDayAbs a : Int) + 14 + 6) % 7) := rfl
  have hne : ¬ pyWeekday (firstDayAbs a) = 4 := by omega
  unfold enumOf firstFridayPandas
  rw [if_neg hne, hdef]
  unfold pyWeekday at *
  push_cast
  omega

/-- The chosen fuel only matters up to sufficiency: with any two fuels large
enough that the loop guard fails before they run out, the loop produces the
same list — so the fuelled embedding computes exactly what the Python
`while` loop does. -/
theorem genAux_fuel_irrelevant (endOrd : Nat) :
    ∀ f₁ f₂ a, endOrd < a + f₁ → endOrd < a + f₂ →
      genAux endOrd f₁ a = genAux endOrd f₂ a := by
  intro f₁
  induction f₁ with
  | zero =>
      intro f₂ a h1 h2
      have hguard : ¬ firstDayAbs a ≤ endOrd := by
        have := lt_firstDayAbs a; omega
      cases f₂ with
      | zero => rfl
      | succ k => simp [genAux, hguard]
  | succ k ih =>
      intro f₂ a h1 h2
      cases f₂ with
      | zero =>
          have hguard : ¬ firstDayAbs a ≤ endOrd := by
            have := lt_firstDayAbs a; omega
          simp [genAux, hguard]
      | succ k₂ =>
          unfold genAux
          by_cases hg : firstDayAbs a ≤ endOrd
          · rw [if_pos hg, if_pos hg, ih k₂ (a + 1) (by omega) (by omega)]
          · rw [if_neg hg, if_neg hg]

theorem genAux_mem (endOrd : Nat) :
    ∀ fuel a tf, tf ∈ genAux endOrd fuel a →
      ∃ b, a ≤ b ∧ tf = enumOf b ∧ tf ≤ endOrd ∧ firstDayAbs b ≤ endOrd := by
  intro fuel
  induction fuel with
  | zero => intro a tf h; simp [genAux] at h
  | succ k ih =>
      intro a tf h
      unfold genAux at h
      by_cases hg : firstDayAbs a ≤ endOrd
      · rw [if_pos hg] at h
        rcases List.mem_append.mp h with h1 | h2
        · by_cases he : enumOf a ≤ endOrd
          · rw [if_pos he] at h1
            simp only [List.mem_singleton] at h1
            exact ⟨a, le_refl a, h1, by omega, hg⟩
          · rw [if_neg he] at h1
            simp at h1
        · obtain ⟨b, hb1, hb2, hb3, hb4⟩ := ih (a + 1) tf h2
          exact ⟨b, by omega, hb2, hb3, hb4⟩
      · rw [if_neg hg] at h
        simp at h

theorem genAux_pairwise (endOrd : Nat) :
    ∀ fuel a, List.Pairwise (· < ·) (genAux endOrd fuel a) := by
  intro fuel
  induction fuel with
  | zero => intro a; simp [genAux]
  | succ k ih =>
      intro a
      unfold genAux
      split_ifs with hg he
      · simp only [List.singleton_append]
        refine List.pairwise_cons.mpr ⟨?_, ih (a + 1)⟩
        intro tf htf
        obtain ⟨b, hb1, hb2, _, _⟩ := genAux_mem endOrd k (a + 1) tf htf
        subst hb2
        exact enumOf_strictMono (show a < b by omega)
      · simpa using ih (a + 1)
      · exact List.Pairwise.nil

/-! ## Claim C3 (amended): properties of `generate_third_fridays` -/

/-- C3 (amended).  The sequence returned by `generate_third_fridays` is
strictly increasing, every entry is at most `end_date`, two entries never
share a calendar month, and an entry agrees with `get_third_friday` of its
calendar month whenever the first day of that month falls Monday–Thursday
(weekday ≤ 3).  (When the first of a month falls Friday, Saturday or
Sunday, the two computations differ — see the counterexample below.) -/
theorem generate_third_fridays_props (start_date end_date : Date) :
    List.Pairwise (· < ·) (generate_third_fridays start_date end_date) ∧
      (∀ tf ∈ generate_third_fridays start_date end_date, tf ≤ end_date.ord) ∧
      (∀ tf ∈ generate_third_fridays start_date end_date,
        ∃ a, tf = enumOf a ∧ InAbsMonth a tf ∧
          (pyWeekday (firstDayAbs a) ≤ 3 →
            (tf : Int) = get_third_friday (absYear a) (absMonthOf a))) ∧
      (∀ t₁ ∈ generate_third_fridays start_date end_date,
        ∀ t₂ ∈ generate_third_fridays start_date end_date,
        ∀ a, InAbsMonth a t₁ → InAbsMonth a t₂ → t₁ = t₂) := by
  refine ⟨genAux_pairwise _ _ _, ?_, ?_, ?_⟩
  · intro tf h
    obtain ⟨b, _, _, h3, _⟩ := genAux_mem _ _ _ tf h
    exact h3
  · intro tf h
    obtain ⟨b, _, hb2, _, _⟩ := genAux_mem _ _ _ tf h
    subst hb2
    exact ⟨b, rfl, enumOf_in_month b, fun hw => enumOf_agrees b hw⟩
  · intro t₁ h₁ t₂ h₂ a hm₁ hm₂
    obtain ⟨b₁, _, hb₁, _, _⟩ := genAux_mem _ _ _ t₁ h₁
    obtain ⟨b₂, _, hb₂, _, _⟩ := genAux_mem _ _ _ t₂ h₂
    subst hb₁; subst hb₂
    have e₁ : a = b₁ := inAbsMonth_unique hm₁ (enumOf_in_month b₁)
    have e₂ : a = b₂ := inAbsMonth_unique hm₂ (enumOf_in_month b₂)
    rw [← e₁, ← e₂]

/-- Witness for C3 (amended): over May 2024 (whose first day is a
Wednesday, weekday 2) the enumeration and `get_third_friday` agree on the
true third Friday, May 17, 2024. -/
theorem generate_third_fridays_props_witness :
    toOrdinal 2024 5 17 ∈ generate_third_fridays ⟨2024, 5, 1⟩ ⟨2024, 5, 31⟩ ∧
      toOrdinal 2024 5 17 ≤ (Date.ord ⟨2024, 5, 31⟩) := by
  refine ⟨by decide, ?_⟩
  exact (generate_third_fridays_props ⟨2024, 5, 1⟩ ⟨2024, 5, 31⟩).2.1
    (toOrdinal 2024 5 17) (by decide)

/-- Counterexample for C3 as stated: over June 2024 (whose first day is a
Saturday) the range enumeration returns June 21, 2024 — but
`get_third_friday(2024, 6)` is June 14, 2024, so the enumerated entry does
*not* equal the single-month computation for its calendar month. -/
theorem generate_third_fridays_counterexample :
    generate_third_fridays ⟨2024, 6, 1⟩ ⟨2024, 6, 30⟩ = [toOrdinal 2024 6 21] ∧
      get_third_friday 2024 6 = (toOrdinal 2024 6 14 : Int) ∧
      InAbsMonth (absMonth 2024 6) (toOrdinal 2024 6 21) ∧
      absYear (absMonth 2024 6) = 2024 ∧ absMonthOf (absMonth 2024 6) = 6 ∧
      ((toOrdinal 2024 6 21 : Int) ≠ get_third_friday 2024 6) := by
  refine ⟨by decide, by decide, ⟨by decide, by decide⟩, by decide, by decide, by decide⟩

/-! ## Parsing lemmas -/

theorem splitOnChar_cons (sep c : Char) (rest : List Char) :
    splitOnChar sep (c :: rest) =
      if c = sep then [] :: splitOnChar sep rest
      else (c :: (splitOnChar sep rest).headD []) :: (splitOnChar sep rest).tail := rfl

theorem splitOnChar_ne_nil (sep : Char) (cs : List Char) : splitOnChar sep cs ≠ [] := by
  cases cs with
  | nil => simp [splitOnChar]
  | cons c rest =>
      rw [splitOnChar_cons]
      by_cases h : c = sep <;> simp [h]

theorem mem_splitOnChar (sep : Char) (cs : List Char) (c : Char) (h : c ∈ cs) :
    c = sep ∨ ∃ p ∈ splitOnChar sep cs, c ∈ p := by
  induction cs with
  | nil => simp at h
  | cons x rest ih =>
      rcases List.mem_cons.mp h with rfl | hm
      · by_cases hx : c = sep
        · exact Or.inl hx
        · refine Or.inr ⟨c :: (splitOnChar sep rest).headD [], ?_, List.mem_cons_self _ _⟩
          rw [splitOnChar_cons, if_neg hx]
          exact List.mem_cons_self _ _
      · rcases ih hm with h1 | ⟨p, hp, hcp⟩
        · exact Or.inl h1
        · refine Or.inr ?_
          by_cases hx : x = sep
          · exact ⟨p, by rw [splitOnChar_cons, if_pos hx]; exact List.mem_cons_of_mem _ hp, hcp⟩
          · rcases hrr : splitOnChar sep rest with _ | ⟨h₀, t₀⟩
            · exact absurd hrr (splitOnChar_ne_nil sep rest)
            · rw [hrr] at hp
              rw [splitOnChar_cons, if_neg hx, hrr]
              simp only [List.headD_cons, List.tail_cons]
              rcases List.mem_cons.mp hp with rfl | hpt
              · exact ⟨x :: p, List.mem_cons_self _ _, List.mem_cons_of_mem _ hcp⟩
              · exact ⟨p, List.mem_cons_of_mem _ hpt, hcp⟩

theorem parseStrike_chars {cs : List Char} {q : ℚ} (h : parseStrike cs = some q) :
    ∀ c ∈ cs, isDigitChar c = true ∨ c = '.' := by
  intro c hc
  rcases mem_splitOnChar '.' cs c hc with h1 | ⟨p, hp, hcp⟩
  · exact Or.inr h1
  · unfold parseStrike at h
    rcases hs : splitOnChar '.' cs with _ | ⟨a, _ | ⟨b, _ | _⟩⟩ <;> rw [hs] at h hp
    · simp at hp
    · left
      simp only [parseStrikeParts] at h
      split_ifs at h with hg
      simp only [List.mem_singleton] at hp
      subst hp
      exact List.all_eq_true.mp hg.2 c hcp
    · left
      simp only [parseStrikeParts] at h
      split_ifs at h with hg
      rcases List.mem_cons.mp hp with rfl | hp2
      · exact List.all_eq_true.mp hg.2.1 c hcp
      · simp only [List.mem_singleton] at hp2
        subst hp2
        exact List.all_eq_true.mp hg.2.2 c hcp
    · simp [parseStrikeParts] at h

theorem elem_strike_head {tok : List Char} {L : Char} {q : ℚ}
    (hL : tok.elem L = true) (hd : isDigitChar L = false) (hdot : L ≠ '.')
    (hq : parseStrike (tok.drop 1) = some q) :
    tok.head? = some L := by
  cases tok with
  | nil => simp [List.elem] at hL
  | cons c rest =>
      have hmem : L ∈ c :: rest := List.mem_of_elem_eq_true hL
      rcases List.mem_cons.mp hmem with rfl | hr
      · rfl
      · exfalso
        have hq' : parseStrike rest = some q := hq
        rcases parseStrike_chars hq' L hr with h1 | h1
        · rw [hd] at h1; exact Bool.false_ne_true h1
        · exact hdot h1

/-! ## Equation lemmas for the chain-filter branches -/

theorem processOption_some {security : String} {px_last : ℚ} {third_friday : Int}
    {parts : List (List Char)} {tok : List Char} (ht : idxNeg2 parts = some tok) :
    processOption security px_last third_friday parts =
      match callBranch security px_last third_friday parts tok with
      | .error e => .error e
      | .ok r₁ =>
        match putBranch security px_last third_friday parts tok with
        | .error e => .error e
        | .ok r₂ => .ok (r₁ ++ r₂) := by
  unfold processOption
  rw [ht]

theorem callBranch_spx {security : String} {px_last : ℚ} {third_friday : Int}
    {parts : List (List Char)} {tok : List Char} (h : security = "SPX Index") :
    callBranch security px_last third_friday parts tok = .ok [] := by
  subst h
  unfold callBranch
  simp

theorem putBranch_nonspx {security : String} {px_last : ℚ} {third_friday : Int}
    {parts : List (List Char)} {tok : List Char} (h : ¬ security = "SPX Index") :
    putBranch security px_last third_friday parts tok = .ok [] := by
  unfold putBranch
  have hb : (security == "SPX Index") = false := by
    simp only [beq_eq_false_iff_ne, ne_eq]
    exact h
  simp [hb]

theorem callBranch_ok {security : String} {px_last : ℚ} {third_friday : Int}
    {parts : List (List Char)} {tok etok : List Char} {expiry : Nat} {strike : ℚ}
    (hg : (tok.elem 'C' && !(security == "SPX Index")) = true)
    (h2 : parts[2]? = some etok) (hE : parseMMDDYY etok = some expiry)
    (hS : parseStrike (tok.drop 1) = some strike) :
    callBranch security px_last third_friday parts tok =
      if (expiry : Int) = third_friday ∧ strike > px_last then
        .ok [⟨security, parts, "CALL", px_last, strike, expiry⟩]
      else .ok [] := by
  unfold callBranch
  rw [if_pos hg]
  simp only [h2, hE, hS]

theorem putBranch_ok {security : String} {px_last : ℚ} {third_friday : Int}
    {parts : List (List Char)} {tok etok : List Char} {expiry : Nat} {strike : ℚ}
    (hg : (tok.elem 'P' && (security == "SPX Index") && !(hasSPXW parts)) = true)
    (h2 : parts[2]? = some etok) (hE : parseMMDDYY etok = some expiry)
    (hS : parseStrike (tok.drop 1) = some strike) :
    putBranch security px_last third_friday parts tok =
      if (expiry : Int) = third_friday ∧ strike < px_last then
        .ok [⟨security, parts, "PUT", px_last, strike, expiry⟩]
      else .ok [] := by
  unfold putBranch
  rw [if_pos hg]
  simp only [h2, hE, hS]

/-- C5.  For a snapshot with a non-missing last price, the per-description
body of `filter_option_chains` produces a candidate iff: for the benchmark
`"SPX Index"`, the description is a PUT entry with the target expiry, no
`SPXW` marker, and strike strictly below the last price; for any other
security, a CALL entry with the target expiry and strike strictly above
the last price. -/
theorem filter_keep_iff (security : String) (px_last : ℚ) (third_friday : Int)
    (parts : List (List Char)) :
    (∃ cs c, processOption security px_last third_friday parts = .ok cs ∧ c ∈ cs) ↔
      (if security = "SPX Index" then
        ∃ e st, IsEntry parts 'P' e st ∧ (e : Int) = third_friday ∧
          hasSPXW parts = false ∧ st < px_last
      else
        ∃ e st, IsEntry parts 'C' e st ∧ (e : Int) = third_friday ∧ st > px_last) := by
  by_cases hsec : security = "SPX Index"
  · rw [if_pos hsec]
    constructor
    · rintro ⟨cs, c, hok, hc⟩
      unfold processOption at hok
      split at hok
      · simp at hok
      · rename_i tok ht
        rw [callBranch_spx hsec] at hok
        simp only at hok
        split at hok
        · simp at hok
        · rename_i r₂ hpb
          simp only [Except.ok.injEq, List.nil_append] at hok
          subst hok
          unfold putBranch at hpb
          split at hpb
          · rename_i hg
            split at hpb
            · simp at hpb
            · rename_i etok h2
              split at hpb
              · simp at hpb
              · rename_i expiry hE
                split at hpb
                · simp at hpb
                · rename_i strike hS
                  split at hpb
                  · rename_i hcond
                    simp only [Except.ok.injEq] at hpb
                    subst hpb
                    simp only [Bool.and_eq_true, Bool.not_eq_eq_eq_not, Bool.not_true] at hg
                    refine ⟨expiry, strike,
                      ⟨etok, tok, h2, ht, hE, ?_, hS⟩, hcond.1, hg.2, hcond.2⟩
                    exact elem_strike_head hg.1.1 (by decide) (by decide) hS
                  · simp only [Except.ok.injEq] at hpb
                    subst hpb
                    simp at hc
          · simp only [Except.ok.injEq] at hpb
            subst hpb
            simp at hc
    · rintro ⟨e, st, ⟨etok, tok, h2, hneg2, hE, hHead, hS⟩, hTF, hW, hLT⟩
      obtain ⟨t, rfl⟩ : ∃ t, tok = 'P' :: t := by
        cases tok with
        | nil => simp at hHead
        | cons c t =>
            simp only [List.head?_cons, Option.some.injEq] at hHead
            exact ⟨t, by rw [hHead]⟩
      have hg : (('P' :: t).elem 'P' && (security == "SPX Index") && !(hasSPXW parts)) = true := by
        simp [hsec, hW, List.elem_cons_self]
      refine ⟨[⟨security, parts, "PUT", px_last, st, e⟩],
        ⟨security, parts, "PUT", px_last, st, e⟩, ?_, List.mem_singleton_self _⟩
      rw [processOption_some hneg2, callBranch_spx hsec]
      simp only [putBranch_ok hg h2 hE hS, if_pos (And.intro hTF hLT), List.nil_append]
  · rw [if_neg hsec]
    constructor
    · rintro ⟨cs, c, hok, hc⟩
      unfold processOption at hok
      split at hok
      · simp at hok
      · rename_i tok ht
        rw [putBranch_nonspx hsec] at hok
        split at hok
        · simp at hok
        · rename_i r₁ hcb
          simp only [Except.ok.injEq, List.append_nil] at hok
          subst hok
          unfold callBranch at hcb
          split at hcb
          · rename_i hg
            split at hcb
            · simp at hcb
            · rename_i etok h2
              split at hcb
              · simp at hcb
              · rename_i expiry hE
                split at hcb
                · simp at hcb
                · rename_i strike hS
                  split at hcb
                  · rename_i hcond
                    simp only [Except.ok.injEq] at hcb
                    subst hcb
                    simp only [Bool.and_eq_true] at hg
                    exact ⟨expiry, strike,
                      ⟨etok, tok, h2, ht, hE,
                        elem_strike_head hg.1 (by decide) (by decide) hS, hS⟩,
                      hcond.1, hcond.2⟩
                  · simp only [Except.ok.injEq] at hcb
                    subst hcb
                    simp at hc
          · simp only [Except.ok.injEq] at hcb
            subst hcb
            simp at hc
    · rintro ⟨e, st, ⟨etok, tok, h2, hneg2, hE, hHead, hS⟩, hTF, hGT⟩
      obtain ⟨t, rfl⟩ : ∃ t, tok = 'C' :: t := by
        cases tok with
        | nil => simp at hHead
        | cons c t =>
            simp only [List.head?_cons, Option.some.injEq] at hHead
            exact ⟨t, by rw [hHead]⟩
      have hb : (security == "SPX Index") = false := by
        simp only [beq_eq_false_iff_ne, ne_eq]
        exact hsec
      have hg : (('C' :: t).elem 'C' && !(security == "SPX Index")) = true := by
        simp [hb, List.elem_cons_self]
      refine ⟨[⟨security, parts, "CALL", px_last, st, e⟩],
        ⟨security, parts, "CALL", px_last, st, e⟩, ?_, List.mem_singleton_self _⟩
      rw [processOption_some hneg2, putBranch_nonspx hsec]
      simp only [callBranch_ok hg h2 hE hS, if_pos (And.intro hTF hGT), List.append_nil]

/-! ## Claim C9: parse failures are local to their description -/

theorem chainResults_nil (security : String) (px_last : ℚ) (third_friday : Int) :
    chainResults security px_last third_friday [] = ([], []) := rfl

theorem chainResults_cons (security : String) (px_last : ℚ) (third_friday : Int)
    (opt : List (List Char)) (rest : List (List (List Char))) :
    chainResults security px_last third_friday (opt :: rest) =
      match processOption security px_last third_friday opt with
      | .ok cs => (cs ++ (chainResults security px_last third_friday rest).1,
          (chainResults security px_last third_friday rest).2)
      | .error e => ((chainResults security px_last third_friday rest).1,
          (opt, e) :: (chainResults security px_last third_friday rest).2) := rfl

/-- C9.  If one description in a security's chain fails to parse (raises),
the candidates produced are exactly those of the chain without it, and the
error record names exactly that description; processing continues over the
rest of the chain and nothing propagates (the embedding of the loop is a
total function whose only effect of a failure is the logged record). -/
theorem chainResults_error_localized (security : String) (px_last : ℚ)
    (third_friday : Int) (pre post : List (List (List Char)))
    (bad : List (List Char)) (e : PyErr)
    (hbad : processOption security px_last third_friday bad = .error e) :
    (chainResults security px_last third_friday (pre ++ bad :: post)).1 =
        (chainResults security px_last third_friday (pre ++ post)).1 ∧
      (chainResults security px_last third_friday (pre ++ bad :: post)).2 =
        (chainResults security px_last third_friday pre).2 ++
          (bad, e) :: (chainResults security px_last third_friday post).2 := by
  induction pre with
  | nil =>
      rw [List.nil_append, List.nil_append, chainResults_nil, chainResults_cons, hbad]
      exact ⟨rfl, rfl⟩
  | cons x rest ih =>
      obtain ⟨ih1, ih2⟩ := ih
      rw [List.cons_append, List.cons_append, chainResults_cons, chainResults_cons,
        chainResults_cons]
      rcases hx : processOption security px_last third_friday x with e' | cs <;>
        simp only [hx]
      · exact ⟨ih1, by rw [ih2, List.cons_append]⟩
      · exact ⟨by rw [ih1], by rw [ih2]⟩

/-- Witness for C9: an empty description (too few tokens) raises an
IndexError which is recorded and leaves the produced candidates unchanged. -/
theorem chainResults_error_localized_witness :
    (chainResults "AAPL US Equity" 100 ((toOrdinal 2024 6 21 : Nat) : Int)
        ([] ++ [] :: [])).1 =
      (chainResults "AAPL US Equity" 100 ((toOrdinal 2024 6 21 : Nat) : Int)
        ([] ++ [])).1 :=
  (chainResults_error_localized "AAPL US Equity" 100 ((toOrdinal 2024 6 21 : Nat) : Int)
    [] [] [] PyErr.indexError rfl).1

/-! ## Claim C2: the liquidity/delta gate has no type coupling -/

/-- C2 (amended).  A row passes the gate of line 163 iff its open interest
is at least 100 and its delta lies in `[0.15, 0.5] ∪ [-0.5, -0.05]`,
regardless of the row's CALL/PUT type. -/
theorem otmGate_iff (df : List Enriched) (r : Enriched) :
    r ∈ df.filter otmGate ↔
      r ∈ df ∧ (100 : ℚ) ≤ r.OPEN_INT ∧
        (((15 : ℚ)/100 ≤ r.DELTA ∧ r.DELTA ≤ (5 : ℚ)/10) ∨
          (-((5 : ℚ)/10) ≤ r.DELTA ∧ r.DELTA ≤ -((5 : ℚ)/100))) := by
  rw [List.mem_filter]
  unfold otmGate
  simp only [Bool.and_eq_true, Bool.or_eq_true, decide_eq_true_eq]
  tauto

/-- Counterexample for C2 as stated: a PUT row with delta `0.3` (inside the
CALL band only) and open interest `200` is *kept* by the gate, though the
claim says a candidate whose delta lies only in the band for the other
type is rejected. -/
theorem otmGate_counterexample :
    otmGate ⟨"XYZ US Equity", [], "PUT", 100, 90, 3/10, 200⟩ = true ∧
      Enriched.TYPE ⟨"XYZ US Equity", [], "PUT", 100, 90, 3/10, 200⟩ = "PUT" ∧
      ¬((Enriched.DELTA ⟨"XYZ US Equity", [], "PUT", 100, 90, 3/10, 200⟩ ≤ -((5 : ℚ)/100)) ∧
        (-((5 : ℚ)/10) ≤ Enriched.DELTA ⟨"XYZ US Equity", [], "PUT", 100, 90, 3/10, 200⟩)) := by
  refine ⟨by with_unfolding_all decide, rfl, by with_unfolding_all decide⟩

/-! ## Claim C6: per-security nearest-target selection -/

theorem firstMin_cons (f : Enriched → ℚ) (x : Enriched) (rest : List Enriched) :
    firstMin f (x :: rest) =
      match firstMin f rest with
      | none => some x
      | some y => if f x ≤ f y then some x else some y := rfl

theorem find_closest_option_cons (g₀ : Enriched) (rest : List Enriched) :
    find_closest_option (g₀ :: rest) =
      firstMin (strikeDiff g₀) ((g₀ :: rest).filter (moneynessGate g₀)) := rfl

theorem firstMin_mem {f : Enriched → ℚ} {l : List Enriched} {r : Enriched}
    (h : firstMin f l = some r) : r ∈ l := by
  induction l with
  | nil => simp [firstMin] at h
  | cons x rest ih =>
      rw [firstMin_cons] at h
      split at h
      · simp only [Option.some.injEq] at h
        subst h
        exact List.mem_cons_self _ _
      · rename_i y hy
        split_ifs at h with hle <;> simp only [Option.some.injEq] at h <;> subst h
        · exact List.mem_cons_self _ _
        · exact List.mem_cons_of_mem _ (ih hy)

/-- `firstMin` returns the first row attaining the minimum: an index `i`
whose value is a global minimum and such that every earlier row is
strictly larger. -/
theorem firstMin_spec (f : Enriched → ℚ) :
    ∀ l : List Enriched, l ≠ [] →
      ∃ i : Fin l.length, firstMin f l = some (l.get i) ∧
        (∀ j, f (l.get i) ≤ f (l.get j)) ∧
        (∀ j : Fin l.length, (j : Nat) < (i : Nat) → f (l.get i) < f (l.get j)) := by
  intro l
  induction l with
  | nil => intro h; exact absurd rfl h
  | cons x rest ih =>
      intro _
      by_cases hr : rest = []
      · subst hr
        refine ⟨⟨0, by simp⟩, by simp [firstMin], ?_, ?_⟩
        · intro j
          have hj0 : j = ⟨0, by simp⟩ := by
            apply Fin.ext
            have hlt := j.isLt
            simp only [List.length_singleton] at hlt
            show (j : Nat) = 0
            omega
          rw [hj0]
        · intro j hj
          exact absurd hj (Nat.not_lt_zero _)
      · obtain ⟨i, hsel, hmin, hfirst⟩ := ih hr
        by_cases hle : f x ≤ f (rest.get i)
        · refine ⟨⟨0, by simp⟩, ?_, ?_, ?_⟩
          · rw [firstMin_cons, hsel]
            simp only [hle, if_true]
            rfl
          · intro j
            rcases j with ⟨jv, hjv⟩
            cases jv with
            | zero => exact le_refl _
            | succ j' =>
                exact le_trans hle (hmin ⟨j', by simpa using hjv⟩)
          · intro j hj
            exact absurd hj (Nat.not_lt_zero _)
        · push_neg at hle
          refine ⟨i.succ, ?_, ?_, ?_⟩
          · rw [firstMin_cons, hsel]
            simp only [not_le.mpr hle, if_false]
            rfl
          · intro j
            rcases j with ⟨jv, hjv⟩
            cases jv with
            | zero => exact le_of_lt hle
            | succ j' => exact hmin ⟨j', by simpa using hjv⟩
          · intro j hj
            rcases j with ⟨jv, hjv⟩
            cases jv with
            | zero => exact hle
            | succ j' =>
                have hj' : j' < (i : Nat) := by
                  simpa [Fin.val_succ] using hj
                exact hfirst ⟨j', by simpa using hjv⟩ hj'

theorem find_closest_option_security (df_f : List Enriched) (k : String) (r : Enriched)
    (h : find_closest_option (df_f.filter (fun r => r.SECURITY_x == k)) = some r) :
    r.SECURITY_x = k := by
  cases hl : df_f.filter (fun r => r.SECURITY_x == k) with
  | nil => rw [hl] at h; simp [find_closest_option] at h
  | cons g₀ rest =>
      rw [hl, find_closest_option_cons] at h
      have hm := firstMin_mem h
      have hmem : r ∈ g₀ :: rest := (List.mem_filter.mp hm).1
      rw [← hl] at hmem
      exact beq_iff_eq.mp (List.mem_filter.mp hmem).2

theorem filterMap_sel_len_le_one (df_f : List Enriched) (keys : List String)
    (hnd : keys.Nodup) (k : String) :
    ((keys.filterMap (fun k' =>
        find_closest_option (df_f.filter (fun r => r.SECURITY_x == k')))).filter
      (fun r => r.SECURITY_x == k)).length ≤ 1 := by
  induction keys with
  | nil => simp
  | cons k' keys' ih =>
      have hnd' : keys'.Nodup := (List.nodup_cons.mp hnd).2
      have hk'notin : k' ∉ keys' := (List.nodup_cons.mp hnd).1
      rw [List.filterMap_cons]
      cases hsel : find_closest_option (df_f.filter (fun r => r.SECURITY_x == k')) with
      | none => exact ih hnd'
      | some r =>
          have hrk : r.SECURITY_x = k' := find_closest_option_security _ _ _ hsel
          rw [List.filter_cons]
          by_cases hkk : (r.SECURITY_x == k) = true
          · have hk : k = k' := by rw [← beq_iff_eq.mp hkk, hrk]
            have hrest : ((keys'.filterMap (fun k'' =>
                find_closest_option (df_f.filter (fun r => r.SECURITY_x == k'')))).filter
                  (fun r => r.SECURITY_x == k)) = [] := by
              rw [List.filter_eq_nil_iff]
              intro a ha hak
              obtain ⟨k'', hk''mem, hk''sel⟩ := List.mem_filterMap.mp ha
              have hak'' : a.SECURITY_x = k'' := find_closest_option_security _ _ _ hk''sel
              have hkeq : k'' = k := by rw [← hak'']; exact beq_iff_eq.mp hak
              rw [hkeq, hk] at hk''mem
              exact hk'notin hk''mem
            simp [hkk, hrest]
          · simp only [hkk, if_false]
            exact ih hnd'

/-- C6.  (1) The selector emits at most one row per security; (2) within a
nonempty gated group, the selected row minimizes `|strike − target|` and
ties resolve to the first-encountered row, while an empty gated group
selects nothing; (3) the target strike is `0.9 ×` last price on the
benchmark-index PUT path and `1.1 ×` last price on the CALL path. -/
theorem find_nearest_otm_spec :
    (∀ df k, ((find_nearest_otm_option df).filter (fun r => r.SECURITY_x == k)).length ≤ 1) ∧
      (∀ g₀ rest,
        ((g₀ :: rest).filter (moneynessGate g₀) = [] →
          find_closest_option (g₀ :: rest) = none) ∧
        ((g₀ :: rest).filter (moneynessGate g₀) ≠ [] → SelSpec g₀ rest)) ∧
      (∀ g₀ : Enriched, targetStrikeOf g₀ =
        if g₀.SECURITY_x = "SPX Index" then g₀.PX_LAST * (9/10)
        else g₀.PX_LAST * (11/10)) := by
  refine ⟨?_, ?_, ?_⟩
  · intro df k
    exact filterMap_sel_len_le_one (df.filter otmGate) _ (List.nodup_dedup _) k
  · intro g₀ rest
    constructor
    · intro hempty
      rw [find_closest_option_cons, hempty]
      rfl
    · intro hne
      obtain ⟨i, hsel, hmin, hfirst⟩ :=
        firstMin_spec (strikeDiff g₀) ((g₀ :: rest).filter (moneynessGate g₀)) hne
      exact ⟨i, by rw [find_closest_option_cons]; exact hsel, hmin, hfirst⟩
  · intro g₀
    unfold targetStrikeOf
    by_cases h : g₀.SECURITY_x = "SPX Index" <;> simp [h]

/-- Witness for C6 at a concrete CALL group: security last price 100,
target strike 110, gated candidates at strikes 105 and 106 — the selector
picks the strike-106 row (distance 4 beats distance 5). -/
theorem find_nearest_otm_spec_witness :
    SelSpec ⟨"XYZ US Equity", [['C','1','0','5']], "CALL", 100, 105, 3/10, 500⟩
      [⟨"XYZ US Equity", [['C','1','0','6']], "CALL", 100, 106, 3/10, 400⟩] :=
  ((find_nearest_otm_spec.2.1
      ⟨"XYZ US Equity", [['C','1','0','5']], "CALL", 100, 105, 3/10, 500⟩
      [⟨"XYZ US Equity", [['C','1','0','6']], "CALL", 100, 106, 3/10, 400⟩]).2
    (by with_unfolding_all decide))

/-- `generate_metrics` on a table with no PUT row raises (helper shared by
several proofs). -/
theorem generate_metrics_eq_error (df : List Row)
    (hf : df.filter (fun r => r.TYPE == "PUT") = []) :
    generate_metrics df = .error .indexError := by
  unfold generate_metrics
  rw [hf]

/-- Closed form of `generate_metrics` on a table whose PUT filter is
nonempty. -/
theorem generate_metrics_eq_ok (put_row r₀ : Row) (ptail dtail : List Row)
    (hput : (r₀ :: dtail).filter (fun r => r.TYPE == "PUT") = put_row :: ptail) :
    generate_metrics (r₀ :: dtail) = .ok
      ⟨(((r₀ :: dtail).filter (fun r => r.TYPE == "CALL")).map Row.Premium).sum,
        (((r₀ :: dtail).filter (fun r => r.TYPE == "PUT")).map Row.Premium).sum,
        (((r₀ :: dtail).filter (fun r => r.TYPE == "CALL")).map Row.Premium).sum +
          (((r₀ :: dtail).filter (fun r => r.TYPE == "PUT")).map Row.Premium).sum,
        ((r₀ :: dtail).map Row.Trading_Fees).sum / r₀.predicted_nav * 100 * 100,
        round2 ((((r₀ :: dtail).filter (fun r => r.TYPE == "CALL")).map Row.percent_nav).sum * 100),
        (((r₀ :: dtail).filter (fun r => r.TYPE == "CALL")).map
          (fun r => r.DELTA * r.percent_nav)).sum,
        (((r₀ :: dtail).filter (fun r => r.TYPE == "CALL")).map
          (fun r => r.GAMMA * r.percent_nav)).sum,
        round2 ((((r₀ :: dtail).filter (fun r => r.TYPE == "CALL")).map
            (fun r => r.Moneyness * r.percent_nav)).sum /
          (((r₀ :: dtail).filter (fun r => r.TYPE == "CALL")).map Row.percent_nav).sum * 100),
        put_row.DELTA, put_row.GAMMA, round2 (put_row.Moneyness * 100)⟩ := by
  unfold generate_metrics
  rw [hput]

/-- C1 (amended).  In the portfolio aggregation, `weighted_call_delta` and
`weighted_call_gamma` are the plain sums `Σ(metric × percent_nav)` over the
CALL rows — *not* divided by `Σ(percent_nav)` — while
`weighted_call_moneyness` alone is normalized by `Σ(percent_nav)` (then
scaled to percent and rounded to two decimals). -/
theorem generate_metrics_weighted_calls (df : List Row) (m : Metrics)
    (h : generate_metrics df = .ok m) :
    m.weightedCallDelta =
        ((df.filter (fun r => r.TYPE == "CALL")).map (fun r => r.DELTA * r.percent_nav)).sum ∧
      m.weightedCallGamma =
        ((df.filter (fun r => r.TYPE == "CALL")).map (fun r => r.GAMMA * r.percent_nav)).sum ∧
      m.weightedCallMoneyness = round2
        (((df.filter (fun r => r.TYPE == "CALL")).map (fun r => r.Moneyness * r.percent_nav)).sum /
          ((df.filter (fun r => r.TYPE == "CALL")).map Row.percent_nav).sum * 100) := by
  rcases hput : df.filter (fun r => r.TYPE == "PUT") with _ | ⟨put_row, ptail⟩
  · rw [generate_metrics_eq_error df hput] at h
    exact absurd h (by simp)
  · cases df with
    | nil => simp at hput
    | cons r₀ dtail =>
        rw [generate_metrics_eq_ok put_row r₀ ptail dtail hput] at h
        simp only [Except.ok.injEq] at h
        subst h
        exact ⟨rfl, rfl, rfl⟩

/-- Witness for C1 (amended) on a two-row table. -/
theorem generate_metrics_weighted_calls_witness :
    (⟨2, -5, -3, 700, 50, 1/2, 0, 0, 7, 9, 25⟩ : Metrics).weightedCallDelta =
        (([exC1call, exC1put].filter (fun r => r.TYPE == "CALL")).map
          (fun r => r.DELTA * r.percent_nav)).sum ∧
      (⟨2, -5, -3, 700, 50, 1/2, 0, 0, 7, 9, 25⟩ : Metrics).weightedCallGamma =
        (([exC1call, exC1put].filter (fun r => r.TYPE == "CALL")).map
          (fun r => r.GAMMA * r.percent_nav)).sum ∧
      (⟨2, -5, -3, 700, 50, 1/2, 0, 0, 7, 9, 25⟩ : Metrics).weightedCallMoneyness = round2
        ((([exC1call, exC1put].filter (fun r => r.TYPE == "CALL")).map
            (fun r => r.Moneyness * r.percent_nav)).sum /
          (([exC1call, exC1put].filter (fun r => r.TYPE == "CALL")).map Row.percent_nav).sum
            * 100) :=
  generate_metrics_weighted_calls [exC1call, exC1put] _ (by with_unfolding_all rfl)

/-- Counterexample for C1 as stated: on the same two-row table the code's
`weighted_call_delta` is `1/2` (the un-normalized sum), while
`Σ(delta × percent_nav) / Σ(percent_nav)` over the CALL rows is `1`. -/
theorem generate_metrics_counterexample :
    ((generate_metrics [exC1call, exC1put]).toOption.map Metrics.weightedCallDelta =
        some ((1 : ℚ)/2)) ∧
      ((([exC1call, exC1put].filter (fun r => r.TYPE == "CALL")).map
          (fun r => r.DELTA * r.percent_nav)).sum /
        (([exC1call, exC1put].filter (fun r => r.TYPE == "CALL")).map Row.percent_nav).sum
          = 1) ∧
      ((1 : ℚ)/2 ≠ 1) := by
  refine ⟨by with_unfolding_all decide, by with_unfolding_all decide, by norm_num⟩

/-- C7.  Premium in basis points: for a CALL,
`contracts × bid × multiplier × fx / NAV × 10000`; for a PUT,
`−(ask / underlying last) × 10000`, independent of the contract count (and
of every other field); any other type gets no premium. -/
theorem calculate_premium_spec (row : Row) :
    (row.TYPE = "CALL" → calculate_premium row =
        some (row.numContracts * row.PX_BID * row.PRICE_MULTIPLIER *
          row.last_xrate_quantity / row.predicted_nav * 10000)) ∧
      (row.TYPE = "PUT" →
        calculate_premium row = some (-(row.PX_ASK / row.PX_LAST) * 10000)) ∧
      (row.TYPE ≠ "CALL" → row.TYPE ≠ "PUT" → calculate_premium row = none) ∧
      (∀ row' : Row, row.TYPE = "PUT" → row'.TYPE = "PUT" →
        row.PX_ASK = row'.PX_ASK → row.PX_LAST = row'.PX_LAST →
        calculate_premium row = calculate_premium row') := by
  refine ⟨?_, ?_, ?_, ?_⟩
  · intro h
    unfold calculate_premium
    rw [if_pos h]
    congr 1
    ring
  · intro h
    unfold calculate_premium
    rw [if_neg (by rw [h]; decide), if_pos h]
    congr 1
    ring
  · intro h1 h2
    unfold calculate_premium
    rw [if_neg h1, if_neg h2]
  · intro row' h h' ha hp
    unfold calculate_premium
    rw [if_neg (by rw [h]; decide), if_pos h, if_neg (by rw [h']; decide), if_pos h',
      ha, hp]

/-- Witness for C7: a CALL with 3 contracts, bid 5, multiplier 10, fx 2 and
NAV 100 carries a premium of 3000 bps by the stated formula. -/
theorem calculate_premium_spec_witness :
    calculate_premium ⟨"CALL", 0, "US", 2, 100, 0, 0, 5, 0, 10, 0, 0, 0, 3, 0, 0⟩ =
      some ((⟨"CALL", 0, "US", 2, 100, 0, 0, 5, 0, 10, 0, 0, 0, 3, 0, 0⟩ : Row).numContracts *
        (⟨"CALL", 0, "US", 2, 100, 0, 0, 5, 0, 10, 0, 0, 0, 3, 0, 0⟩ : Row).PX_BID *
        (⟨"CALL", 0, "US", 2, 100, 0, 0, 5, 0, 10, 0, 0, 0, 3, 0, 0⟩ : Row).PRICE_MULTIPLIER *
        (⟨"CALL", 0, "US", 2, 100, 0, 0, 5, 0, 10, 0, 0, 0, 3, 0, 0⟩ : Row).last_xrate_quantity /
        (⟨"CALL", 0, "US", 2, 100, 0, 0, 5, 0, 10, 0, 0, 0, 3, 0, 0⟩ : Row).predicted_nav *
        10000) :=
  (calculate_premium_spec ⟨"CALL", 0, "US", 2, 100, 0, 0, 5, 0, 10, 0, 0, 0, 3, 0, 0⟩).1 rfl

/-- C8 (amended).  Under the sign conventions of the data (non-negative
volume, NAV, price multiplier and underlying price) the computed contract
count is non-negative, and equals `floor(volume / multiplier)` for a CALL,
`floor(NAV / (multiplier × last))` for a PUT, and `0` otherwise. -/
theorem calculate_number_of_contracts_nonneg (row : Row) (predicted_nav : ℚ)
    (hv : 0 ≤ row.volume) (hn : 0 ≤ predicted_nav)
    (hm : 0 ≤ row.PRICE_MULTIPLIER) (hp : 0 ≤ row.PX_LAST) :
    0 ≤ calculate_number_of_contracts row predicted_nav ∧
      (row.TYPE = "CALL" → calculate_number_of_contracts row predicted_nav =
        ((⌊row.volume / row.PRICE_MULTIPLIER⌋ : ℤ) : ℚ)) ∧
      (row.TYPE = "PUT" → calculate_number_of_contracts row predicted_nav =
        ((⌊predicted_nav / (row.PRICE_MULTIPLIER * row.PX_LAST)⌋ : ℤ) : ℚ)) ∧
      (row.TYPE ≠ "CALL" → row.TYPE ≠ "PUT" →
        calculate_number_of_contracts row predicted_nav = 0) := by
  refine ⟨?_, ?_, ?_, ?_⟩
  · unfold calculate_number_of_contracts
    split_ifs with h1 h2
    · have hq : (0 : ℚ) ≤ row.volume / row.PRICE_MULTIPLIER := div_nonneg hv hm
      exact_mod_cast Int.floor_nonneg.mpr hq
    · have hq : (0 : ℚ) ≤ predicted_nav / (row.PRICE_MULTIPLIER * row.PX_LAST) :=
        div_nonneg hn (mul_nonneg hm hp)
      exact_mod_cast Int.floor_nonneg.mpr hq
    · exact le_refl 0
  · intro h
    unfold calculate_number_of_contracts
    rw [if_pos h]
  · intro h
    unfold calculate_number_of_contracts
    rw [if_neg (by rw [h]; decide), if_pos h]
  · intro h1 h2
    unfold calculate_number_of_contracts
    rw [if_neg h1, if_neg h2]

/-- Witness for C8 (amended): a CALL with volume 250 and multiplier 100
gets `floor(2.5) = 2 ≥ 0` contracts. -/
theorem calculate_number_of_contracts_nonneg_witness :
    0 ≤ calculate_number_of_contracts
      ⟨"CALL", 250, "US", 1, 0, 0, 50, 0, 0, 100, 0, 0, 0, 0, 0, 0⟩ 1000 :=
  (calculate_number_of_contracts_nonneg
    ⟨"CALL", 250, "US", 1, 0, 0, 50, 0, 0, 100, 0, 0, 0, 0, 0, 0⟩ 1000
    (by norm_num) (by norm_num) (by norm_num) (by norm_num)).1

/-- Counterexample for C8 as stated: with a negative position volume
(`-100`, multiplier `100`) the CALL branch computes `floor(-1) = -1 < 0`,
so the contract count is not non-negative on every row. -/
theorem calculate_number_of_contracts_counterexample :
    calculate_number_of_contracts
        ⟨"CALL", -100, "US", 1, 0, 0, 50, 0, 0, 100, 0, 0, 0, 0, 0, 0⟩ 1000 = -1 ∧
      ¬(0 ≤ calculate_number_of_contracts
        ⟨"CALL", -100, "US", 1, 0, 0, 50, 0, 0, 100, 0, 0, 0, 0, 0, 0⟩ 1000) := by
  refine ⟨by with_unfolding_all decide, by with_unfolding_all decide⟩

/-- C10.  On a table with no PUT row, the aggregation raises an uncaught
IndexError (line 220, `df[df['TYPE'] == 'PUT'].iloc[0]`) instead of
skipping the PUT metrics. -/
theorem generate_metrics_requires_put (df : List Row)
    (h : ∀ r ∈ df, r.TYPE ≠ "PUT") :
    generate_metrics df = .error .indexError := by
  have hf : df.filter (fun r => r.TYPE == "PUT") = [] := by
    rw [List.filter_eq_nil_iff]
    intro a ha
    simp only [beq_iff_eq]
    exact h a ha
  unfold generate_metrics
  rw [hf]

/-- Witness for C10: a one-row CALL-only table makes `generate_metrics`
raise. -/
theorem generate_metrics_requires_put_witness :
    generate_metrics [exC1call] = .error .indexError :=
  generate_metrics_requires_put [exC1call]
    (by intro r hr; rw [List.mem_singleton] at hr; subst hr; decide)

/-- Witness for C5: the description `"AAPL US 06/21/24 C150 Equity"` on a
non-benchmark security priced 100 with target expiry June 21, 2024 is
kept. -/
theorem filter_keep_iff_witness :
    ∃ cs c, processOption "AAPL US Equity" 100 ((toOrdinal 2024 6 21 : Nat) : Int)
        [['A','A','P','L'], ['U','S'], ['0','6','/','2','1','/','2','4'],
          ['C','1','5','0'], ['E','q','u','i','t','y']] = .ok cs ∧ c ∈ cs :=
  (filter_keep_iff "AAPL US Equity" 100 ((toOrdinal 2024 6 21 : Nat) : Int)
      [['A','A','P','L'], ['U','S'], ['0','6','/','2','1','/','2','4'],
        ['C','1','5','0'], ['E','q','u','i','t','y']]).mpr
    (by
      rw [if_neg (by decide)]
      exact ⟨toOrdinal 2024 6 21, 150,
        ⟨['0','6','/','2','1','/','2','4'], ['C','1','5','0'],
          rfl, by decide, by decide, rfl, by decide⟩,
        by decide, by decide⟩)
